import Mathlib

/-
Verification development for the infiniloom repository packager.

The Rust sources are shallowly embedded: pure functions become Lean
functions, machine integers become Nat/Int, and the source's f32/f64
arithmetic is modelled by exact rationals (ℚ).  Strings are modelled at
the level the source manipulates them: lists of characters where the
source works on chars, lists of bytes where it slices byte ranges.
Each definition is annotated with the source location it embeds.
-/

set_option maxHeartbeats 1000000
set_option maxRecDepth 8000
set_option allowUnsafeReducibility true
attribute [local semireducible] Rat.add Rat.mul Rat.inv Rat.sub

namespace IL

/-- Embeds `SymbolKind` from engine/src/types.rs. -/
inductive SymbolKind where
  | Function
  | Method
  | Class
  | Interface
  | Struct
  | Enum
  | Constant
  | Variable
  | Import
  | Export
  | TypeAlias
  | Module
  | Trait
  | Macro
  deriving DecidableEq, Repr

/-- Embeds `Symbol` from engine/src/types.rs.  Line numbers are u32,
modelled as Nat; `importance` is f32, modelled as ℚ. -/
structure Symbol where
  name : String
  kind : SymbolKind
  signature : Option String
  docstring : Option String
  start_line : Nat
  end_line : Nat
  references : Nat
  importance : ℚ
  parent : Option String
  deriving DecidableEq, Repr

/-- Embeds `Symbol::new` from engine/src/types.rs (start/end line 0,
references 0, importance 0.5). -/
def Symbol.new (name : String) (kind : SymbolKind) : Symbol :=
  ⟨name, kind, none, none, 0, 0, 0, 1/2, none⟩

/-- Embeds `Symbol::line_count` from engine/src/types.rs: u32 subtraction
guarded by `end_line >= start_line`, else 1. -/
def Symbol.line_count (s : Symbol) : Nat :=
  if s.start_line ≤ s.end_line then s.end_line - s.start_line + 1 else 1

/-- Embeds `TokenCounts` from engine/src/types.rs (five u32 counters). -/
structure TokenCounts where
  claude : Nat
  gpt4o : Nat
  gpt4 : Nat
  gemini : Nat
  llama : Nat
  deriving DecidableEq, Repr

/-- Embeds `RepoFile` from engine/src/types.rs.  `path` is the absolute
path, `relative_path` the repo-relative one; `importance` is f32 → ℚ. -/
structure RepoFile where
  path : String
  relative_path : String
  language : Option String
  size_bytes : Nat
  token_count : TokenCounts
  symbols : List Symbol
  importance : ℚ
  content : Option String
  deriving DecidableEq, Repr

/-- Embeds `TokenizerModel` from engine/src/types.rs (the five-model CLI
enum, distinct from the tokenizer's six-model enum). -/
inductive TokenizerModel where
  | Claude
  | Gpt4o
  | Gpt4
  | Gemini
  | Llama
  deriving DecidableEq, Repr

end IL

namespace Tok

/-- Embeds `TokenModel` from engine/src/tokenizer.rs. -/
inductive TokenModel where
  | Claude
  | Gpt4o
  | Gpt4
  | Gemini
  | Llama
  | CodeLlama
  deriving DecidableEq, Repr

/-- Embeds `TokenModel::chars_per_token` from engine/src/tokenizer.rs
(f32 constants 3.5, 4.0, 3.7, 3.8, 3.5, 3.2 as exact rationals). -/
def charsPerTok : TokenModel → ℚ
  | .Claude => 7/2
  | .Gpt4o => 4
  | .Gpt4 => 37/10
  | .Gemini => 19/5
  | .Llama => 7/2
  | .CodeLlama => 16/5

/-- Embeds `TokenModel::has_exact_tokenizer` from engine/src/tokenizer.rs. -/
def hasExactTok : TokenModel → Bool
  | .Gpt4o => true
  | .Gpt4 => true
  | _ => false

/-- The punctuation set matched in `Tokenizer::estimate`
(engine/src/tokenizer.rs lines 147-151).  Braces, pipe, backtick and the
two quote characters are written via their code points. -/
def specialChars : List Char :=
  [Char.ofNat 123, Char.ofNat 125, '(', ')', '[', ']', ';', ':', ',', '.',
   '=', '+', '-', '*', '/', '<', '>', '!', '&', Char.ofNat 124,
   '@', '#', '$', '%', '^', '~', Char.ofNat 96, Char.ofNat 34, Char.ofNat 39]

/-- UTF-8 byte length of a character list; `text.len()` in Rust counts
bytes, not chars. -/
def byteLen (text : List Char) : Nat := (text.map Char.utf8Size).sum

/-- Embeds `Tokenizer::estimate` from engine/src/tokenizer.rs: base
chars/token estimate, minus 0.3 per space/tab, plus 0.5 per newline, and
for Claude/CodeLlama only, plus 0.3 per punctuation character; finally
`ceil().max(1.0) as u32`. -/
def estimate (text : List Char) (m : TokenModel) : Nat :=
  if text.isEmpty then 0
  else
    let len : ℚ := byteLen text
    let e0 : ℚ := len / charsPerTok m
    let ws : ℚ := (text.filter fun c => c == ' ' || c == '\t').length
    let e1 : ℚ := e0 - ws * (3/10)
    let nl : ℚ := (text.filter fun c => c == '\n').length
    let e2 : ℚ := e1 + nl * (1/2)
    let sp : ℚ := (text.filter fun c => specialChars.contains c).length
    let e3 : ℚ :=
      if m = TokenModel.CodeLlama ∨ m = TokenModel.Claude then e2 + sp * (3/10) else e2
    (max ⌈e3⌉ 1).toNat

/-- Embeds `Tokenizer::count` from engine/src/tokenizer.rs.  The exact
BPE path (tiktoken, an external crate) is a parameter; it is only taken
when `use_exact && model.has_exact_tokenizer()`. -/
def count (use_exact : Bool) (exact : List Char → TokenModel → Nat)
    (text : List Char) (m : TokenModel) : Nat :=
  if text.isEmpty then 0
  else if use_exact && hasExactTok m then exact text m
  else estimate text m

/-- The claim's formula (spec §4.10): chars/token base with all three
adjustments — including the punctuation one — applied to every estimated
model.  Written from the claim's words, for comparison with `estimate`. -/
def claimCount (text : List Char) (m : TokenModel) : Nat :=
  let len : ℚ := byteLen text
  let ws : ℚ := (text.filter fun c => c == ' ' || c == '\t').length
  let nl : ℚ := (text.filter fun c => c == '\n').length
  let sp : ℚ := (text.filter fun c => specialChars.contains c).length
  (max ⌈len / charsPerTok m - ws * (3/10) + nl * (1/2) + sp * (3/10)⌉ 1).toNat

end Tok

namespace FullRank

/-- Embeds `type_importance` from engine/src/ranking.rs. -/
def type_importance : IL.SymbolKind → ℚ
  | .Class | .Interface | .Trait => 1
  | .Function | .Method => 4/5
  | .Struct | .Enum | .TypeAlias => 7/10
  | .Constant | .Export => 3/5
  | .Module => 1/2
  | .Variable | .Import | .Macro => 3/10

/-- Embeds `SymbolRanker::compute_score` from engine/src/ranking.rs with
the default weights (0.4, 0.25, 0.2, 0.15); the final `clamp(0.0, 1.0)`
is `min (max · 0) 1`. -/
def compute_score (s : IL.Symbol) (file_importance : ℚ)
    (max_references max_lines : Nat) : ℚ :=
  let ref_score : ℚ := if 0 < max_references then (s.references : ℚ) / max_references else 0
  let type_score : ℚ := type_importance s.kind
  let size_score : ℚ :=
    if 0 < max_lines then min ((s.line_count : ℚ) / max_lines) 1 else 0
  let score : ℚ := (2/5) * ref_score + (1/4) * type_score
    + (1/5) * file_importance + (3/20) * size_score
  min (max score 0) 1

end FullRank

namespace Str

/-- Substring containment (`str::contains` for literal patterns). -/
def listContains (l pat : List Char) : Bool :=
  l.tails.any fun t => pat.isPrefixOf t

/-- String-level `str::contains` for literal patterns. -/
def strContains (s pat : String) : Bool :=
  listContains s.toList pat.toList

/-- The last `/`-separated component of a path: `Path::file_name` for a
normal file path, and `path.rsplit('/').next()` for a relative path. -/
def lastSegment (p : String) : List Char :=
  (p.toList.reverse.takeWhile fun c => c ≠ '/').reverse

/-- ASCII lowercase of a string (the paths and patterns compared in the
rankers are ASCII, where Rust's `to_lowercase` agrees with this). -/
def lowerStr (s : String) : String :=
  String.mk (s.toList.map Char.toLower)

/-- Rust's `str::starts_with` for literal patterns. -/
def strStartsWith (s pat : String) : Bool :=
  pat.toList.isPrefixOf s.toList

/-- Rust's `str::ends_with` for literal patterns. -/
def strEndsWith (s pat : String) : Bool :=
  pat.toList.isSuffixOf s.toList

/-- Number of `/` separators in a path (`path.matches('/').count()`). -/
def slashCount (p : String) : Nat :=
  (p.toList.filter fun c => c == '/').length

end Str

namespace PG

/-- Out-degree of node `v`: the number of outgoing edges, parallel edges
and self-loops counted once each, as petgraph's `neighbors(..).count()`
does in `SymbolGraph::compute_pagerank` (engine/src/repomap/graph.rs). -/
def outDeg (edges : List (Nat × Nat)) (v : Nat) : Nat :=
  (edges.filter fun e => e.1 == v).length

/-- Total rank mass held by dangling (zero out-degree) nodes: the first
pass of the iteration loop in `compute_pagerank`. -/
def danglingSum (n : Nat) (edges : List (Nat × Nat)) (r : Nat → ℚ) : ℚ :=
  ∑ i in Finset.range n, if outDeg edges i = 0 then r i else 0

/-- One iteration of `SymbolGraph::compute_pagerank`
(engine/src/repomap/graph.rs lines 85-117): every node is reset to the
teleport mass `(1-d)/N`, receives `d·dangling_sum/N`, and accumulates
`d·rank/out_degree` along every incoming edge.  The imperative
accumulation loops are additive, so the per-node result is this sum. -/
def pagerankStep (n : Nat) (edges : List (Nat × Nat)) (d : ℚ) (r : Nat → ℚ) :
    Nat → ℚ := fun i =>
  (1 - d) / n + d * danglingSum n edges r / n
    + ((edges.filter fun e => e.2 == i).map fun e =>
        d * r e.1 / (outDeg edges e.1 : ℚ)).sum

/-- Embeds `SymbolGraph::compute_pagerank`: uniform initial rank `1/N`,
then `iters` iterations of `pagerankStep` (the `n = 0` early return is
handled by the callers' hypotheses). -/
def compute_pagerank (n : Nat) (edges : List (Nat × Nat)) (d : ℚ)
    (iters : Nat) : Nat → ℚ :=
  (pagerankStep n edges d)^[iters] (fun _ => 1 / n)

end PG

namespace Lines

/-- One step of `str::split_inclusive('\n')`, folded from the right:
a newline closes the current chunk (keeping the newline as the chunk's
last character). -/
def splitStep (c : Char) (acc : List (List Char)) : List (List Char) :=
  if c = '\n' then [c] :: acc
  else
    match acc with
    | [] => [[c]]
    | h :: t => (c :: h) :: t

/-- Rust's `str::split_inclusive('\n')`: chunks each ending with the
newline, except possibly the last; the empty string yields no chunks. -/
def splitInclusiveNl (s : List Char) : List (List Char) :=
  s.foldr splitStep []

/-- Remove one trailing occurrence of `c`, as the `strip_suffix` steps of
Rust's `str::lines` do for `'\n'` and then `'\r'`. -/
def stripLast (c : Char) (l : List Char) : List Char :=
  match l.getLast? with
  | some c2 => if c2 = c then l.dropLast else l
  | none => l

/-- Rust's `str::lines`: split inclusively at newlines, then strip the
trailing `'\n'` and a single `'\r'` immediately preceding it. -/
def rustLines (s : List Char) : List (List Char) :=
  (splitInclusiveNl s).map fun ch => stripLast '\r' (stripLast '\n' ch)

/-- Rust's `char::is_whitespace` (the Unicode White_Space property),
used by `str::trim`. -/
def rustIsWhitespace (c : Char) : Bool :=
  c.toNat ∈ [9, 10, 11, 12, 13, 32, 133, 160, 5760,
    8192, 8193, 8194, 8195, 8196, 8197, 8198, 8199, 8200, 8201, 8202,
    8232, 8233, 8239, 8287, 12288]

/-- Rust's `str::trim`: drop whitespace from both ends. -/
def trimList (l : List Char) : List Char :=
  ((l.dropWhile rustIsWhitespace).reverse.dropWhile rustIsWhitespace).reverse

/-- Embeds `remove_empty_lines_from_content` from cli/src/main.rs lines
1265-1272: `content.lines().filter(|l| !l.trim().is_empty()).join("\n")`. -/
def remove_empty_lines_from_content (s : List Char) : List Char :=
  List.intercalate ['\n'] ((rustLines s).filter fun p => !(trimList p).isEmpty)

end Lines

namespace Scan

/-- Embeds the walker-produced `FileInfo` record from cli/src/scanner.rs. -/
structure FileInfo where
  path : String
  relative_path : String
  size_bytes : Nat
  language : Option String
  deriving DecidableEq, Repr

/-- Embeds `estimate_tokens` from cli/src/scanner.rs lines 335-358: f32
divisions by the per-model chars-per-token constants, truncated to u32,
modelled by exact rational floors. -/
def estimate_tokens (size_bytes : Nat) (content : Option (List Char)) :
    IL.TokenCounts :=
  let len : ℚ :=
    match content with
    | some text => (Tok.byteLen text : ℚ)
    | none => (size_bytes : ℚ)
  ⟨(⌊len / (7/2)⌋).toNat, (⌊len / 4⌋).toNat, (⌊len / (37/10)⌋).toNat,
   (⌊len / (19/5)⌋).toNat, (⌊len / (7/2)⌋).toNat⟩

/-- Embeds `process_file_without_content` from cli/src/scanner.rs
(metadata-only Phase B task). -/
def process_file_without_content (info : FileInfo) : IL.RepoFile :=
  { path := info.path
    relative_path := info.relative_path
    language := info.language
    size_bytes := info.size_bytes
    token_count := estimate_tokens info.size_bytes none
    symbols := []
    importance := 1/2
    content := none }

/-- Phase B of `scan_repository` in metadata-only mode followed by the
Phase C reduce: the file list of the returned `Repository`.  No step of
`scan_repository` reorders the walker's list (cli/src/scanner.rs lines
100-218 contain no sort of `files`). -/
def scanFilesMeta (infos : List FileInfo) : List IL.RepoFile :=
  infos.map process_file_without_content

/-- The distinct language tags of a file list, as keyed by the
`language_counts` HashMap in `scan_repository` (files with `language ==
None` are skipped). -/
def langsOf (files : List IL.RepoFile) : List String :=
  (files.filterMap (·.language)).dedup

/-- Number of files carrying language tag `l`. -/
def countLang (files : List IL.RepoFile) (l : String) : Nat :=
  (files.filterMap (·.language)).count l

/-- Embeds the percentage computation of `scan_repository` (cli/src/
scanner.rs lines 164-174): `(count / total_files) * 100` when
`total_files > 0`, f32 modelled as ℚ. -/
def percentageOf (files : List IL.RepoFile) (l : String) : ℚ :=
  if 0 < files.length then (countLang files l : ℚ) / files.length * 100 else 0

/-- Sum of `languages[*].percentage` over the produced `LanguageStats`. -/
def sumPercentages (files : List IL.RepoFile) : ℚ :=
  ((langsOf files).map (percentageOf files)).sum

/-- Lexicographic order on byte strings (the order of Rust's `str`
comparison, used to state the claimed sortedness). -/
def lexLe : List Char → List Char → Bool
  | [], _ => true
  | _ :: _, [] => false
  | a :: as, b :: bs => if a = b then lexLe as bs else decide (a.toNat < b.toNat)

/-- Lexicographic sortedness of the file list by `relative_path`. -/
def sortedByRelPath (files : List IL.RepoFile) : Prop :=
  List.Chain' (fun a b => lexLe a.relative_path.toList b.relative_path.toList = true) files

end Scan

namespace Budget

/-- Byte string of an ASCII literal (all marker and notice literals in
cli/src/main.rs are ASCII, where UTF-8 encodes each char as one byte). -/
def asciiBytes (s : String) : List Nat := s.toList.map Char.toNat

/-- Embeds the char/token ratios of `estimate_tokens` in cli/src/main.rs
lines 1359-1369 (f64 constants 4.0, 4.0, 4.0, 4.2, 3.8 as rationals). -/
def rateOf : IL.TokenizerModel → ℚ
  | .Claude => 4
  | .Gpt4o => 4
  | .Gpt4 => 4
  | .Gemini => 21/5
  | .Llama => 19/5

/-- Embeds `estimate_tokens` from cli/src/main.rs: `(len / ratio) as
usize`, i.e. the floor of the byte length over the ratio. -/
def estimate_tokens (text : List Nat) (m : IL.TokenizerModel) : Nat :=
  (⌊(text.length : ℚ) / rateOf m⌋).toNat

/-- The boundary markers searched by `truncate_to_tokens`
(cli/src/main.rs line 1386). -/
def truncMarkers : List (List Nat) :=
  [asciiBytes "</file>", asciiBytes "```\n\n",
   asciiBytes "----------------------------------------\n", asciiBytes "\n---\n"]

/-- Whether `pat` occurs in `l` starting at byte offset `i`. -/
def matchesAt (pat l : List Nat) (i : Nat) : Bool :=
  pat.isPrefixOf (l.drop i)

/-- Rust's `str::rfind(marker)`: the start offset of the last occurrence. -/
def rfindSub (pat l : List Nat) : Option Nat :=
  ((List.range (l.length + 1)).filter (matchesAt pat l)).getLast?

/-- The marker loop of `truncate_to_tokens` (cli/src/main.rs lines
1387-1397): the first marker whose last occurrence ends past the midpoint
wins; a marker found at or before the midpoint does not stop the loop. -/
def bestEndGo (truncated : List Nat) : List (List Nat) → Nat
  | [] => truncated.length
  | mk :: rest =>
    match rfindSub mk truncated with
    | some pos =>
      if truncated.length / 2 < pos + mk.length then pos + mk.length
      else bestEndGo truncated rest
    | none => bestEndGo truncated rest

/-- The single-line truncation notice appended by `truncate_to_tokens`. -/
def noticeBytes : List Nat :=
  asciiBytes "\n\n<!-- Output truncated to fit token limit -->\n"

/-- Embeds `truncate_to_tokens` from cli/src/main.rs lines 1372-1402:
truncate to ≈ len·budget/current·0.95 bytes, back off to the latest
boundary marker past the midpoint, and append the truncation notice. -/
def truncate_to_tokens (text : List Nat) (max_tokens : Nat)
    (m : IL.TokenizerModel) : List Nat :=
  let current := estimate_tokens text m
  if current ≤ max_tokens then text
  else
    let target : Nat :=
      (⌊(text.length : ℚ) * ((max_tokens : ℚ) / (current : ℚ)) * (19/20)⌋).toNat
    let truncated := text.take (min target text.length)
    truncated.take (bestEndGo truncated truncMarkers) ++ noticeBytes

/-- Embeds the `max_tokens` enforcement step of `generate_context`
(cli/src/main.rs lines 845-855). -/
def enforce (text : List Nat) (max_tokens : Nat) (m : IL.TokenizerModel) :
    List Nat :=
  if 0 < max_tokens ∧ max_tokens < estimate_tokens text m
  then truncate_to_tokens text max_tokens m
  else text

/-- The enforced output up to but not including the appended truncation
notice (the `truncated[..best_end]` slice of `truncate_to_tokens`). -/
def preNotice (text : List Nat) (max_tokens : Nat) (m : IL.TokenizerModel) :
    List Nat :=
  let current := estimate_tokens text m
  if current ≤ max_tokens then text
  else
    let target : Nat :=
      (⌊(text.length : ℚ) * ((max_tokens : ℚ) / (current : ℚ)) * (19/20)⌋).toNat
    let truncated := text.take (min target text.length)
    truncated.take (bestEndGo truncated truncMarkers)

end Budget

namespace FastRank

/-- Entry-point filename suffixes of `rank_files_fast`
(cli/src/main.rs lines 1412-1419). -/
def entryPointPatterns : List String :=
  ["main.rs", "main.go", "main.py", "main.ts", "main.js", "main.c", "main.cpp",
   "index.ts", "index.js", "index.tsx", "index.jsx", "index.py",
   "app.py", "app.ts", "app.js", "app.tsx", "app.jsx", "app.go",
   "server.py", "server.ts", "server.js", "server.go",
   "mod.rs", "lib.rs", "lib.py",
   "__main__.py", "__init__.py"]

/-- Config/manifest substrings of `rank_files_fast` (lines 1425-1431). -/
def configPatterns : List String :=
  ["Cargo.toml", "package.json", "pyproject.toml", "go.mod", "pom.xml",
   "build.gradle", "Gemfile", "requirements.txt", "setup.py", "setup.cfg",
   "tsconfig.json", "webpack.config", "vite.config", "next.config",
   "Makefile", "CMakeLists.txt", "Dockerfile", "docker-compose",
   ".env.example"]

/-- API-surface directory substrings (line 1442). -/
def importantPatterns : List String :=
  ["api/", "routes/", "models/", "controllers/", "services/", "handlers/"]

/-- Test-path substrings (line 1448). -/
def testPatterns : List String :=
  ["/test", "_test.", ".test.", ".spec.", "tests/", "__tests__/"]

/-- Examples/benchmarks/scripts/tools substrings (line 1454). -/
def auxiliaryPatterns : List String :=
  ["examples/", "example/", "benchmarks/", "bench/", "scripts/", "tools/"]

/-- Vendored/generated/docs substrings (line 1460). -/
def lowPriorityPatterns : List String :=
  ["vendor/", "third_party/", "generated/", "docs/", "doc/"]

/-- Embeds the sort key of `rank_files_fast` (cli/src/main.rs lines
1407-1473): i32 arithmetic starting from the base score 1000, modelled
as Int (the deltas are additive; each pattern group fires at most once). -/
def scoreOf (path : String) : Int :=
  1000
  - (if entryPointPatterns.any (fun p => Str.strEndsWith path p) then 5000 else 0)
  - (if configPatterns.any (fun p => Str.strContains path p) then 3000 else 0)
  - (if Str.strStartsWith path "src/" || Str.strStartsWith path "lib/" || Str.strStartsWith path "pkg/"
     then 1000 else 0)
  - (if importantPatterns.any (fun p => Str.strContains path p) then 500 else 0)
  + (if testPatterns.any (fun p => Str.strContains path p) then 2000 else 0)
  + (if auxiliaryPatterns.any (fun p => Str.strContains path p) then 1500 else 0)
  + (if lowPriorityPatterns.any (fun p => Str.strContains path p) then 3000 else 0)
  + (Str.slashCount path : Int) * 50
  + (Tok.byteLen (Str.lastSegment path) : Int) / 5

/-- The claim's score: the same additive path-pattern deltas without the
base constant 1000 (spec §4.4 lists only the deltas).  Written from the
claim's words for comparison with `scoreOf`. -/
def claimScoreOf (path : String) : Int :=
  (if entryPointPatterns.any (fun p => Str.strEndsWith path p) then -5000 else 0)
  + (if configPatterns.any (fun p => Str.strContains path p) then -3000 else 0)
  + (if Str.strStartsWith path "src/" || Str.strStartsWith path "lib/" || Str.strStartsWith path "pkg/"
     then -1000 else 0)
  + (if importantPatterns.any (fun p => Str.strContains path p) then -500 else 0)
  + (if testPatterns.any (fun p => Str.strContains path p) then 2000 else 0)
  + (if auxiliaryPatterns.any (fun p => Str.strContains path p) then 1500 else 0)
  + (if lowPriorityPatterns.any (fun p => Str.strContains path p) then 3000 else 0)
  + (Str.slashCount path : Int) * 50
  + (Tok.byteLen (Str.lastSegment path) : Int) / 5

/-- Embeds `rank_files_fast` from cli/src/main.rs lines 1406-1481:
stable ascending sort by `scoreOf` (Rust's `sort_by_key` is stable;
`List.insertionSort` with `≤` on keys keeps equal-key elements in input
order), then `importance = 1 - i/N` down the sorted list. -/
def rank_files_fast (files : List IL.RepoFile) : List IL.RepoFile :=
  let sorted := List.insertionSort
    (fun a b => scoreOf a.relative_path ≤ scoreOf b.relative_path) files
  sorted.enum.map fun p =>
    { p.2 with importance := 1 - (p.1 : ℚ) / (files.length : ℚ) }

/-- The claim's description of fast mode: sort ascending by the
delta-sum score, then assign `importance = 1 - i/N`. -/
def claimRankFast (files : List IL.RepoFile) : List IL.RepoFile :=
  let sorted := List.insertionSort
    (fun a b => claimScoreOf a.relative_path ≤ claimScoreOf b.relative_path) files
  sorted.enum.map fun p =>
    { p.2 with importance := 1 - (p.1 : ℚ) / (files.length : ℚ) }

end FastRank

namespace FullRank

/-- Critical entry-point filenames of `rank_files`
(engine/src/ranking.rs lines 141-168). -/
def criticalEntryPatterns : List String :=
  ["__main__.py", "main.rs", "main.go", "main.c", "main.cpp", "main.ts",
   "main.js", "index.ts", "index.js", "index.tsx", "index.jsx", "app.ts",
   "app.js", "app.py", "app.go", "app.rb", "server.ts", "server.js",
   "server.py", "server.go", "cli.rs", "cli.ts", "cli.js", "cli.py",
   "lib.rs", "mod.rs"]

/-- Core implementation directory substrings (line 171-172). -/
def coreDirs : List String :=
  ["/src/", "/lib/", "/core/", "/pkg/", "/internal/", "/app/", "/cmd/",
   "/bin/", "/crates/"]

/-- Entry-point filename front patterns (lines 175-187). -/
def entryPrefixes : List String :=
  ["main.", "index.", "app.", "server.", "cli.", "mod.", "lib.", "init.",
   "__init__.", "entry.", "bootstrap."]

/-- Documentation filename front patterns (line 190). -/
def docPatterns : List String :=
  ["readme.", "changelog.", "contributing.", "license.", "authors."]

/-- Config filename/path substrings (lines 193-214). -/
def configPatterns : List String :=
  ["config.", "settings.", ".config", "package.json", "cargo.toml",
   "pyproject.toml", "setup.py", "setup.cfg", "tsconfig.", "webpack.",
   ".eslint", ".prettier", "jest.config", "vite.config", ".env",
   "makefile", "dockerfile", "docker-compose", ".github/", ".gitlab"]

/-- Test-path substrings (lines 218-250). -/
def testPatterns : List String :=
  ["test_", "_test.", ".test.", "spec.", "_spec.", "/tests/", "tests/",
   "/test/", "test/", "/__tests__/", "__tests__/", "/testing/", "testing/",
   "/fixtures/", "fixtures/", "/mocks/", "mocks/", "mock_", "_mock.",
   "/e2e/", "e2e/", "/integration/", "integration/", "/unit/", "unit/",
   "/examples/", "examples/", "/example/", "example/", "/benchmark/",
   "benchmark/"]

/-- Vendor/generated path substrings (lines 253-283). -/
def vendorPatterns : List String :=
  ["/vendor/", "vendor/", "/node_modules/", "node_modules/", "/dist/",
   "dist/", "/build/", "build/", "/target/", "target/", "/__pycache__/",
   "__pycache__/", "/.next/", ".next/", "/coverage/", "coverage/",
   "/.cache/", ".cache/", "/generated/", "generated/", "/.generated/",
   ".generated/", "/gen/", "gen/", ".min.js", ".min.css", ".bundle.",
   "/benchmarks/", "benchmarks/"]

/-- Implementation-name filename substrings boosted at the end of
`rank_files` (lines 337-344). -/
def implNames : List String :=
  ["handler", "service", "controller", "model", "util", "helper",
   "router", "middleware"]

/-- The per-file importance computed by `rank_files`
(engine/src/ranking.rs lines 285-351): a cascade of path-pattern checks
on the lowercased filename and relative path, then a symbol-count boost
and an implementation-name boost unless the file is in a test or vendor
directory.  f32 constants appear as exact rationals. -/
def fileImp (path rel : String) (nsym : Nat) : ℚ :=
  let filename := Str.lowerStr (String.mk (Str.lastSegment path))
  let p := Str.lowerStr rel
  let base : ℚ :=
    if vendorPatterns.any (fun q => Str.strContains p q) then 1/20
    else if testPatterns.any (fun q => Str.strContains p q) then 3/20
    else if configPatterns.any
        (fun q => Str.strContains filename q || Str.strContains p q) then 1/4
    else if docPatterns.any (fun q => Str.strStartsWith filename q) then 7/20
    else if criticalEntryPatterns.any (fun q => filename == q) then 1
    else if entryPrefixes.any (fun q => Str.strStartsWith filename q) then 9/10
    else if coreDirs.any (fun q => Str.strContains p q) then 3/4
    else 1/2
  let is_test_or_vendor := vendorPatterns.any (fun q => Str.strContains p q)
    || testPatterns.any (fun q => Str.strContains p q)
  if is_test_or_vendor then base
  else
    let boosted := min (base + min ((nsym : ℚ) / 50) (3/20)) 1
    if implNames.any (fun q => Str.strContains filename q)
    then min (boosted + 1/10) 1
    else boosted

/-- Embeds `rank_files` from engine/src/ranking.rs lines 139-352: every
file's importance is overwritten with `fileImp` of its path, relative
path and symbol count.  No PageRank and no symbol graph is consulted. -/
def rank_files (files : List IL.RepoFile) : List IL.RepoFile :=
  files.map fun f =>
    { f with importance := fileImp f.path f.relative_path f.symbols.length }

/-- Embeds `sort_files_by_importance` from engine/src/ranking.rs lines
355-361: stable descending sort by importance (`sort_by` is stable; the
insertion relation keeps equal-importance files in input order). -/
def sort_files_by_importance (files : List IL.RepoFile) : List IL.RepoFile :=
  List.insertionSort (fun a b => b.importance ≤ a.importance) files

/-- The full-mode branch of `generate_context` (cli/src/main.rs lines
681-688): `rank_files` then `sort_files_by_importance`. -/
def fullMode (files : List IL.RepoFile) : List IL.RepoFile :=
  sort_files_by_importance (rank_files files)

end FullRank

namespace RMap

/-- Rust's `str::trim_end_matches(pat)`: repeatedly remove the suffix
while it matches (used by `build_symbol_index` in
engine/src/repomap/mod.rs lines 170-177), fuelled structural recursion. -/
def dropSuffixFuel : Nat → List Char → List Char → List Char
  | 0, _, l => l
  | fuel + 1, suff, l =>
    if suff ≠ [] ∧ suff.isSuffixOf l then
      dropSuffixFuel fuel suff (l.take (l.length - suff.length))
    else l

/-- Rust's `str::trim_end_matches(pat)` on char lists: each successful
strip shortens the list by at least one character, so `l.length` rounds
of `dropSuffixFuel` reach the fixed point. -/
def dropSuffixAllL (suff l : List Char) : List Char :=
  dropSuffixFuel l.length suff l

/-- The path key of `build_symbol_index`: the relative path with the
`.rs`, `.py`, `.js`, `.ts`, `.go`, `.java` suffixes trimmed in that
order (chained `trim_end_matches` calls). -/
def pathKey (p : String) : String :=
  String.mk (dropSuffixAllL ".java".toList (dropSuffixAllL ".go".toList
    (dropSuffixAllL ".ts".toList (dropSuffixAllL ".js".toList
      (dropSuffixAllL ".py".toList (dropSuffixAllL ".rs".toList p.toList))))))

/-- The symbol graph of engine/src/repomap/graph.rs: nodes in insertion
order (each a `(file_path, symbol)` pair), the `symbol_indices` HashMap
as an overwrite-on-insert association list (latest insertion found
first), and the directed edge list by node index. -/
structure SGraph where
  nodes : List (String × IL.Symbol)
  keyIdx : List (String × Nat)
  edges : List (Nat × Nat)
  deriving Repr

/-- HashMap lookup: the most recent insertion for a key wins. -/
def lookupIdx (m : List (String × Nat)) (k : String) : Option Nat :=
  (m.find? fun kv => kv.1 == k).map (·.2)

/-- HashMap lookup on a string-valued map. -/
def lookupStr (m : List (String × String)) (k : String) : Option String :=
  (m.find? fun kv => kv.1 == k).map (·.2)

/-- Embeds `SymbolGraph::add_file`: one node per symbol, keyed
`"{relative_path}:{name}"`. -/
def add_file (g : SGraph) (f : IL.RepoFile) : SGraph :=
  f.symbols.foldl (fun g s =>
    { g with
      nodes := g.nodes ++ [(f.relative_path, s)]
      keyIdx := (f.relative_path ++ ":" ++ s.name, g.nodes.length) :: g.keyIdx })
    g

/-- Embeds `SymbolGraph::add_reference`: add an edge only when both
keys resolve to nodes. -/
def add_reference (g : SGraph) (frm tgt : String) : SGraph :=
  match lookupIdx g.keyIdx frm, lookupIdx g.keyIdx tgt with
  | some i, some j => { g with edges := g.edges ++ [(i, j)] }
  | _, _ => g

/-- Embeds `RepoMapGenerator::build_symbol_index`
(engine/src/repomap/mod.rs lines 167-187): for every symbol of every
file, insert the symbol name and then the extension-trimmed path key,
both mapping to `"{relative_path}:{name}"`; later insertions
overwrite. -/
def build_symbol_index (files : List IL.RepoFile) : List (String × String) :=
  files.foldl (fun idx f =>
    let pk := pathKey f.relative_path
    f.symbols.foldl (fun idx s =>
      (pk, f.relative_path ++ ":" ++ s.name)
        :: (s.name, f.relative_path ++ ":" ++ s.name) :: idx) idx) []

/-- Embeds `RepoMapGenerator::extract_references_fast`
(engine/src/repomap/mod.rs lines 190-202): every import symbol's name is
looked up in the index; a hit adds one Imports edge. -/
def extract_references_fast (g : SGraph) (files : List IL.RepoFile)
    (idx : List (String × String)) : SGraph :=
  files.foldl (fun g f =>
    f.symbols.foldl (fun g s =>
      if s.kind = IL.SymbolKind.Import then
        match lookupStr idx s.name with
        | some target => add_reference g (f.relative_path ++ ":" ++ s.name) target
        | none => g
      else g) g) g

/-- The rank of a node key: `ranks.get(&key).copied().unwrap_or(0.0)`
against the map built from `symbol_indices`. -/
def rankOfKey (g : SGraph) (ranks : Nat → ℚ) (k : String) : ℚ :=
  match lookupIdx g.keyIdx k with
  | some i => ranks i
  | none => 0

/-- Embeds `SymbolGraph::get_top_symbols_with_ranks`: pair every node
with its rank, stable-sort descending by rank, take the first `n`. -/
def get_top_symbols_with_ranks (g : SGraph) (ranks : Nat → ℚ) (n : Nat) :
    List (String × IL.Symbol) :=
  let ranked := g.nodes.map fun nd => (nd, rankOfKey g ranks (nd.1 ++ ":" ++ nd.2.name))
  ((List.insertionSort (fun a b => b.2 ≤ a.2) ranked).take n).map (·.1)

/-- Embeds `SymbolKind::name` from engine/src/types.rs. -/
def kindName : IL.SymbolKind → String
  | .Function => "function"
  | .Method => "method"
  | .Class => "class"
  | .Interface => "interface"
  | .Struct => "struct"
  | .Enum => "enum"
  | .Constant => "constant"
  | .Variable => "variable"
  | .Import => "import"
  | .Export => "export"
  | .TypeAlias => "type"
  | .Module => "module"
  | .Trait => "trait"
  | .Macro => "macro"

/-- Embeds `RankedSymbol` from engine/src/repomap/mod.rs. -/
structure RankedSymbol where
  name : String
  kind : String
  file : String
  line : Nat
  signature : Option String
  references : Nat
  rank : Nat
  importance : ℚ
  deriving DecidableEq, Repr

/-- Embeds `RepoMapGenerator::build_ranked_symbols_fast`. -/
def build_ranked_symbols_fast (g : SGraph) (ranks : Nat → ℚ)
    (max_symbols : Nat) : List RankedSymbol :=
  (get_top_symbols_with_ranks g ranks max_symbols).enum.map fun p =>
    { name := p.2.2.name
      kind := kindName p.2.2.kind
      file := p.2.1
      line := p.2.2.start_line
      signature := p.2.2.signature
      references := p.2.2.references
      rank := p.1 + 1
      importance := rankOfKey g ranks (p.2.1 ++ ":" ++ p.2.2.name) }

/-- The graph-and-symbols core of a generated `RepoMap`: the Imports
edge list and the ranked `key_symbols` (summary, module graph and file
index affect neither). -/
structure GenResult where
  edges : List (Nat × Nat)
  key_symbols : List RankedSymbol
  deriving DecidableEq, Repr

/-- Embeds `RepoMapGenerator::generate` (engine/src/repomap/mod.rs lines
126-164) with the default configuration (`max_symbols = 50`, damping
0.85, 20 iterations): build the graph, build the index, resolve imports,
run PageRank once, rank symbols. -/
def generate (files : List IL.RepoFile) : GenResult :=
  let g0 := files.foldl add_file ⟨[], [], []⟩
  let idx := build_symbol_index files
  let g := extract_references_fast g0 files idx
  let ranks := PG.compute_pagerank g.nodes.length g.edges (17/20) 20
  ⟨g.edges, build_ranked_symbols_fast g ranks 50⟩

end RMap

namespace Tok

/-- The amended estimation formula: identical to the claim's except that
the punctuation adjustment is applied only for Claude and CodeLlama, as
`Tokenizer::estimate` does. -/
def amendedCount (text : List Char) (m : TokenModel) : Nat :=
  let len : ℚ := byteLen text
  let ws : ℚ := (text.filter fun c => c == ' ' || c == '\t').length
  let nl : ℚ := (text.filter fun c => c == '\n').length
  let sp : ℚ := (text.filter fun c => specialChars.contains c).length
  (max ⌈len / charsPerTok m - ws * (3/10) + nl * (1/2)
    + (if m = TokenModel.CodeLlama ∨ m = TokenModel.Claude
       then sp * (3/10) else 0)⌉ 1).toNat

end Tok

namespace CX

/-- Ten left-brace characters: a punctuation-only text on which the
claimed and the implemented estimators disagree for Gemini. -/
def braceText : List Char := List.replicate 10 (Char.ofNat 123)

/-- An import symbol as the parser emits it, at line `ln`.
Modelled from the spec: tree-sitter parsing is external to src/; §4.2
fixes that each import becomes a `Symbol` with `kind = import` and name
equal to the raw import text, so `import util` in mod.py yields a symbol
named `"import util"` (parser.rs lines 533-540 take the full
`import_statement` node text). -/
def symImport (nm : String) (ln : Nat) : IL.Symbol :=
  { IL.Symbol.new nm IL.SymbolKind.Import with start_line := ln, end_line := ln }

/-- The function symbol extracted from `def util():` in util.py.
Modelled from the spec (§4.2): a Python function definition yields a
`Function` symbol named by its name node. -/
def symUtilFn : IL.Symbol :=
  { IL.Symbol.new "util" IL.SymbolKind.Function with
      start_line := 1, end_line := 2, signature := some "def util()" }

/-- `src/mod.py` of the spec's multi-language-imports scenario, its one
symbol being the raw-text import. -/
def fileModPy : IL.RepoFile :=
  { path := "/repo/src/mod.py"
    relative_path := "src/mod.py"
    language := some "python"
    size_bytes := 12
    token_count := ⟨3, 3, 3, 3, 3⟩
    symbols := [symImport "import util" 1]
    importance := 1/2
    content := some "import util\n" }

/-- `src/util.py` of the scenario. -/
def fileUtilPy : IL.RepoFile :=
  { path := "/repo/src/util.py"
    relative_path := "src/util.py"
    language := some "python"
    size_bytes := 21
    token_count := ⟨6, 5, 5, 5, 6⟩
    symbols := [symUtilFn]
    importance := 1/2
    content := some "def util():\n    pass\n" }

/-- The repository of the spec's scenario 3 as the scanner assembles it
(files in lexicographic path order). -/
def scenarioFiles : List IL.RepoFile := [fileModPy, fileUtilPy]

/-- A repository identical to `scenarioFiles` except that mod.py's import
symbol is named `"util"`: its resolution then targets util.py's function,
giving the symbol graph a non-loop Imports edge. -/
def repoR1 : List IL.RepoFile :=
  [{ fileModPy with symbols := [symImport "util" 1] }, fileUtilPy]

/-- As `repoR1` but the import symbol is named `"qqq"`, which resolves to
itself: the symbol graph differs from `repoR1`'s (a self-loop instead of
an edge to util.py), while every file's path and symbol count agree. -/
def repoR2 : List IL.RepoFile :=
  [{ fileModPy with symbols := [symImport "qqq" 1] }, fileUtilPy]

/-- A file the language classifier leaves untagged (no extension). -/
def fileNoLang : IL.RepoFile :=
  { path := "/repo/LICENSE"
    relative_path := "LICENSE"
    language := none
    size_bytes := 5
    token_count := ⟨1, 1, 1, 1, 1⟩
    symbols := []
    importance := 1/2
    content := none }

/-- Walker output arriving in non-lexicographic order. -/
def infoB : Scan.FileInfo := ⟨"/repo/b.py", "b.py", 10, some "python"⟩

/-- Second walker record, lexicographically before `infoB`. -/
def infoA : Scan.FileInfo := ⟨"/repo/a.py", "a.py", 10, some "python"⟩

end CX

/- Theorems.  Helper lemmas come first, then one theorem per claim with
its witness or counterexample. -/

theorem orderedInsert_congr {α : Type} (r r' : α → α → Prop)
    [DecidableRel r] [DecidableRel r'] (h : ∀ a b, r a b ↔ r' a b)
    (a : α) (l : List α) :
    List.orderedInsert r a l = List.orderedInsert r' a l := by
  induction l with
  | nil => rfl
  | cons b t ih =>
    simp only [List.orderedInsert]
    by_cases hr : r a b
    · rw [if_pos hr, if_pos ((h a b).mp hr)]
    · rw [if_neg hr, if_neg (fun hh => hr ((h a b).mpr hh)), ih]

theorem insertionSort_congr {α : Type} (r r' : α → α → Prop)
    [DecidableRel r] [DecidableRel r'] (h : ∀ a b, r a b ↔ r' a b)
    (l : List α) :
    List.insertionSort r l = List.insertionSort r' l := by
  induction l with
  | nil => rfl
  | cons a t ih =>
    simp only [List.insertionSort, ih]
    exact orderedInsert_congr r r' h a _

theorem sum_ite_eq_zero_of_not_mem {α : Type} [DecidableEq α]
    (l : List α) (a : α) (ha : a ∉ l) :
    (l.map fun x => if x = a then (1 : ℕ) else 0).sum = 0 := by
  induction l with
  | nil => rfl
  | cons b t ih =>
    have hb : b ≠ a := fun hh => ha (hh ▸ List.mem_cons_self b t)
    have hat : a ∉ t := fun hh => ha (List.mem_cons_of_mem _ hh)
    simp [hb, ih hat]

theorem sum_ite_eq_one_of_nodup {α : Type} [DecidableEq α]
    (l : List α) (a : α) (hnd : l.Nodup) (ha : a ∈ l) :
    (l.map fun x => if x = a then (1 : ℕ) else 0).sum = 1 := by
  induction l with
  | nil => cases ha
  | cons b t ih =>
    rcases List.mem_cons.mp ha with hba | hat
    · have hnt : a ∉ t := by
        subst hba; exact (List.nodup_cons.mp hnd).1
      simp [hba.symm, sum_ite_eq_zero_of_not_mem t a hnt]
    · have hba : b ≠ a := by
        intro hh; subst hh; exact (List.nodup_cons.mp hnd).1 hat
      simp [hba, ih (List.nodup_cons.mp hnd).2 hat]

theorem sum_counts_dedup_nat {α : Type} [DecidableEq α] (L : List α) :
    ((L.dedup).map fun x => L.count x).sum = L.length := by
  induction L with
  | nil => rfl
  | cons a t ih =>
    have hcnt : ∀ x, (a :: t).count x = t.count x + (if x = a then 1 else 0) := by
      intro x; by_cases hx : x = a <;> simp [List.count_cons, hx]
    by_cases hm : a ∈ t
    · rw [List.dedup_cons_of_mem hm]
      have hsplit :
          ((t.dedup).map fun x => (a :: t).count x).sum
            = ((t.dedup).map fun x => t.count x).sum
              + ((t.dedup).map fun x => if x = a then 1 else 0).sum := by
        rw [← List.sum_map_add]
        simp only [hcnt]
      rw [hsplit, ih,
        sum_ite_eq_one_of_nodup t.dedup a (List.nodup_dedup t) (List.mem_dedup.mpr hm)]
      simp
    · rw [List.dedup_cons_of_not_mem hm]
      have hhead : (a :: t).count a = 1 := by
        simp [List.count_cons, List.count_eq_zero_of_not_mem hm]
      have htail : ∀ x ∈ t.dedup, (a :: t).count x = t.count x := by
        intro x hx
        have hxa : x ≠ a := by
          intro hh; subst hh; exact hm (List.mem_dedup.mp hx)
        simp [List.count_cons, hxa]
      rw [List.map_cons, List.sum_cons, hhead, List.map_congr_left htail, ih]
      simp [Nat.add_comm]

/-- Claim C4: in fast mode each file's score is the sum of the additive
path-pattern deltas (−5000 entry points, −3000 config, −1000 src/lib/pkg
prefixes, −500 API directories, +2000 tests, +1500 auxiliaries, +3000
vendored/docs, +50 per separator, +len(basename)/5); files are sorted
ascending by that score and the file at sorted index i receives
importance 1 − i/N.  `rank_files_fast` sorts by 1000 plus that sum, which
induces the same order, so the two pipelines agree on every input. -/
theorem claim_C4 (files : List IL.RepoFile) :
    FastRank.rank_files_fast files = FastRank.claimRankFast files := by
  have hsc : ∀ p : String,
      FastRank.scoreOf p = 1000 + FastRank.claimScoreOf p := by
    intro p
    unfold FastRank.scoreOf FastRank.claimScoreOf
    split_ifs <;> ring
  have hrel : ∀ a b : IL.RepoFile,
      (FastRank.scoreOf a.relative_path ≤ FastRank.scoreOf b.relative_path) ↔
      (FastRank.claimScoreOf a.relative_path ≤ FastRank.claimScoreOf b.relative_path) := by
    intro a b; rw [hsc, hsc]; omega
  unfold FastRank.rank_files_fast FastRank.claimRankFast
  rw [insertionSort_congr _ _ hrel]

/-- Claim C5 counterexample: a repository whose single file has no
detected language has `total_files > 0` but language percentages summing
to 0, not 100 ± 0.1. -/
theorem claim_C5_cx :
    0 < ([CX.fileNoLang] : List IL.RepoFile).length ∧
    ¬ |Scan.sumPercentages [CX.fileNoLang] - 100| ≤ 1/10 := by
  constructor
  · decide
  · decide

/-- Claim C5 (amended): the language percentages sum to
`100 · (number of language-tagged files) / total_files` exactly (in the
rational model of the f32 arithmetic); in particular they sum to 100,
well within the 0.1 tolerance, whenever `total_files > 0` and every
scanned file has a detected language.  Files with no language tag are
counted in `total_files` but in no language bucket, so the unconditional
claim fails. -/
theorem claim_C5 (files : List IL.RepoFile) (h : 0 < files.length) :
    Scan.sumPercentages files
      = 100 * ((files.filterMap (fun f => f.language)).length : ℚ)
          / (files.length : ℚ) ∧
    ((∀ f ∈ files, (f.language).isSome) →
      |Scan.sumPercentages files - 100| ≤ 1/10) := by
  have hn : ((files.length : ℚ)) ≠ 0 := by
    exact_mod_cast Nat.pos_iff_ne_zero.mp h
  have key : Scan.sumPercentages files
      = 100 * ((files.filterMap (fun f => f.language)).length : ℚ)
          / (files.length : ℚ) := by
    unfold Scan.sumPercentages Scan.percentageOf Scan.langsOf Scan.countLang
    simp only [if_pos h]
    have hfun :
        (fun l => ((files.filterMap (fun f => f.language)).count l : ℚ)
            / (files.length : ℚ) * 100)
          = fun l => ((files.filterMap (fun f => f.language)).count l : ℚ)
            * (100 / (files.length : ℚ)) := by
      funext l; ring
    rw [hfun, List.sum_map_mul_right]
    have hcast :
        (((files.filterMap (fun f => f.language)).dedup).map
            fun x => ((files.filterMap (fun f => f.language)).count x : ℚ)).sum
          = (((files.filterMap (fun f => f.language)).dedup).map
              fun x => (files.filterMap (fun f => f.language)).count x).sum := by
      rw [Nat.cast_list_sum, List.map_map]
      rfl
    rw [hcast, sum_counts_dedup_nat]
    ring
  refine ⟨key, fun hall => ?_⟩
  have hlen : (files.filterMap (fun f => f.language)).length = files.length := by
    clear key hn h
    induction files with
    | nil => rfl
    | cons f t ih =>
      obtain ⟨l, hl⟩ := Option.isSome_iff_exists.mp (hall f (List.mem_cons_self f t))
      simp [List.filterMap_cons, hl,
        ih (fun g hg => hall g (List.mem_cons_of_mem _ hg))]
  rw [key, hlen, mul_div_assoc, div_self hn, mul_one]
  simp

/-- Claim C5 witness: a single Python-tagged file satisfies the
hypothesis and realizes the amended sum. -/
theorem claim_C5_witness :
    Scan.sumPercentages [CX.fileModPy]
      = 100 * ((([CX.fileModPy] : List IL.RepoFile).filterMap
          (fun f => f.language)).length : ℚ)
        / (([CX.fileModPy] : List IL.RepoFile).length : ℚ) :=
  (claim_C5 [CX.fileModPy] (by decide)).1

/-- Claim C6 counterexample: `scan_repository` contains no sort of the
file list, so when the walker emits `b.py` before `a.py` the returned
repository's files are not in lexicographic `relative_path` order. -/
theorem claim_C6_cx :
    ¬ Scan.sortedByRelPath (Scan.scanFilesMeta [CX.infoB, CX.infoA]) := by
  intro hsort
  have h := (List.chain'_cons.mp hsort).1
  revert h
  decide

/-- Claim C6 (amended): Phase B and Phase C of `scan_repository` preserve
the walker's emission order — the returned files' relative paths are
exactly the walked `FileInfo` paths in order; the files are in
lexicographic order only when the walk already emitted them so, as no
phase sorts by `relative_path`. -/
theorem claim_C6 (infos : List Scan.FileInfo) :
    (Scan.scanFilesMeta infos).map (fun f => f.relative_path)
      = infos.map (fun i => i.relative_path) := by
  unfold Scan.scanFilesMeta
  rw [List.map_map]
  rfl

/-- Claim C7 counterexample: on ten brace characters the implementation
estimates 3 Gemini tokens while the claimed all-models punctuation
adjustment would give 6, so the punctuation adjustment does not apply to
every estimated model. -/
theorem claim_C7_cx :
    Tok.count true (fun _ _ => 0) CX.braceText Tok.TokenModel.Gemini = 3 ∧
    Tok.claimCount CX.braceText Tok.TokenModel.Gemini = 6 := by
  constructor
  · decide
  · decide

/-- Claim C7 (amended): for models without an exact BPE tokenizer,
`Tokenizer::count` on non-empty text is the chars-per-token estimate with
the whitespace and newline adjustments, and with the punctuation
adjustment applied only when the model is Claude or CodeLlama — not for
Gemini, Llama, or estimation-only GPT models. -/
theorem claim_C7 (use_exact : Bool) (exact : List Char → Tok.TokenModel → Nat)
    (text : List Char) (m : Tok.TokenModel)
    (hm : Tok.hasExactTok m = false) (ht : text.isEmpty = false) :
    Tok.count use_exact exact text m = Tok.amendedCount text m := by
  unfold Tok.count Tok.estimate Tok.amendedCount
  simp only [ht, hm, Bool.and_false, Bool.false_eq_true, if_false]
  by_cases hcc : m = Tok.TokenModel.CodeLlama ∨ m = Tok.TokenModel.Claude
  · simp only [if_pos hcc]
  · simp only [if_neg hcc, add_zero]

/-- Claim C7 witness: concrete non-empty text under the Gemini
estimator. -/
theorem claim_C7_witness :
    Tok.count true (fun _ _ => 0) (String.toList "ab cd") Tok.TokenModel.Gemini
      = Tok.amendedCount (String.toList "ab cd") Tok.TokenModel.Gemini :=
  claim_C7 true (fun _ _ => 0) (String.toList "ab cd") Tok.TokenModel.Gemini
    (by decide) (by decide)

/-- Claim C10: `Symbol::line_count` is total and never underflows — it
equals `end_line - start_line + 1` (as integers) when
`end_line ≥ start_line` and 1 otherwise, is always at least 1, and
`SymbolRanker::compute_score` stays within [0,1] for every symbol,
including freshly constructed ones with both lines 0. -/
theorem claim_C10 (s : IL.Symbol) :
    1 ≤ s.line_count ∧
    (s.start_line ≤ s.end_line →
      (s.line_count : ℤ) = (s.end_line : ℤ) - (s.start_line : ℤ) + 1) ∧
    (¬ s.start_line ≤ s.end_line → s.line_count = 1) ∧
    ∀ (file_importance : ℚ) (max_references max_lines : Nat),
      0 ≤ FullRank.compute_score s file_importance max_references max_lines ∧
      FullRank.compute_score s file_importance max_references max_lines ≤ 1 := by
  refine ⟨?_, ?_, ?_, ?_⟩
  · unfold IL.Symbol.line_count; split <;> omega
  · intro h; unfold IL.Symbol.line_count; rw [if_pos h]; omega
  · intro h; unfold IL.Symbol.line_count; rw [if_neg h]
  · intro fi mr ml
    unfold FullRank.compute_score
    exact ⟨le_min (le_max_right _ _) (by norm_num), min_le_right _ _⟩

/-- Claim C10 witness: a freshly constructed symbol (both lines 0). -/
theorem claim_C10_witness :
    1 ≤ (IL.Symbol.new "f" IL.SymbolKind.Function).line_count ∧
    ((IL.Symbol.new "f" IL.SymbolKind.Function).line_count : ℤ)
      = ((IL.Symbol.new "f" IL.SymbolKind.Function).end_line : ℤ)
        - ((IL.Symbol.new "f" IL.SymbolKind.Function).start_line : ℤ) + 1 ∧
    0 ≤ FullRank.compute_score (IL.Symbol.new "f" IL.SymbolKind.Function)
        (1/2) 0 0 :=
  ⟨(claim_C10 _).1,
   (claim_C10 (IL.Symbol.new "f" IL.SymbolKind.Function)).2.1 (by decide),
   ((claim_C10 _).2.2.2 (1/2) 0 0).1⟩

theorem sum_filter_targets (n : Nat) (edges : List (Nat × Nat)) (f : Nat × Nat → ℚ)
    (hv : ∀ e ∈ edges, e.2 < n) :
    (∑ i in Finset.range n, ((edges.filter fun e => e.2 == i).map f).sum)
      = (edges.map f).sum := by
  induction edges with
  | nil => simp
  | cons e es ih =>
    have he : e.2 < n := (hv e (List.mem_cons_self e es))
    have hstep : ∀ i : Nat,
        (((e :: es).filter fun e2 => e2.2 == i).map f).sum
          = (if e.2 = i then f e else 0)
            + ((es.filter fun e2 => e2.2 == i).map f).sum := by
      intro i
      by_cases h : e.2 = i
      · simp [List.filter_cons, h]
      · simp [List.filter_cons, h]
    simp only [hstep]
    rw [Finset.sum_add_distrib, ih (fun e2 he2 => hv e2 (List.mem_cons_of_mem _ he2))]
    rw [Finset.sum_ite_eq (Finset.range n) e.2 (fun _ => f e)]
    simp [Finset.mem_range.mpr he]

theorem sum_by_source (n : Nat) (edges : List (Nat × Nat)) (g : Nat → ℚ)
    (hv : ∀ e ∈ edges, e.1 < n) :
    (edges.map fun e => g e.1).sum
      = ∑ v in Finset.range n, (PG.outDeg edges v : ℚ) * g v := by
  induction edges with
  | nil => simp [PG.outDeg]
  | cons e es ih =>
    have he : e.1 < n := hv e (List.mem_cons_self e es)
    have hdeg : ∀ v, ((PG.outDeg (e :: es) v : ℚ))
        = (if e.1 = v then 1 else 0) + (PG.outDeg es v : ℚ) := by
      intro v
      by_cases h : e.1 = v
      · simp [PG.outDeg, List.filter_cons, h]
        ring
      · simp [PG.outDeg, List.filter_cons, h]
    simp only [List.map_cons, List.sum_cons, hdeg, add_mul, Finset.sum_add_distrib]
    rw [ih (fun e2 he2 => hv e2 (List.mem_cons_of_mem _ he2))]
    have hone : (∑ v in Finset.range n, (if e.1 = v then (1:ℚ) else 0) * g v)
        = g e.1 := by
      have hfun : (fun v => (if e.1 = v then (1:ℚ) else 0) * g v)
          = fun v => if e.1 = v then g v else 0 := by
        funext v; by_cases h : e.1 = v <;> simp [h]
      rw [hfun, Finset.sum_ite_eq (Finset.range n) e.1 g]
      simp [Finset.mem_range.mpr he]
    rw [hone]

theorem pagerank_step_sum (n : Nat) (edges : List (Nat × Nat)) (d : ℚ)
    (r : Nat → ℚ) (hn : 0 < n) (hv : ∀ e ∈ edges, e.1 < n ∧ e.2 < n) :
    (∑ i in Finset.range n, PG.pagerankStep n edges d r i)
      = (1 - d) + d * (∑ i in Finset.range n, r i) := by
  have hnq : ((n : ℚ)) ≠ 0 := Nat.cast_ne_zero.mpr (Nat.pos_iff_ne_zero.mp hn)
  unfold PG.pagerankStep
  rw [Finset.sum_add_distrib, Finset.sum_add_distrib]
  have h1 : (∑ _i in Finset.range n, ((1 - d) / (n : ℚ))) = 1 - d := by
    rw [Finset.sum_const, Finset.card_range, nsmul_eq_mul]
    field_simp
  have h2 : (∑ _i in Finset.range n, d * PG.danglingSum n edges r / (n : ℚ))
      = d * PG.danglingSum n edges r := by
    rw [Finset.sum_const, Finset.card_range, nsmul_eq_mul]
    field_simp
  have h3 : (∑ i in Finset.range n,
      ((edges.filter fun e => e.2 == i).map fun e =>
        d * r e.1 / (PG.outDeg edges e.1 : ℚ)).sum)
      = d * ((∑ i in Finset.range n, r i) - PG.danglingSum n edges r) := by
    rw [sum_filter_targets n edges _ (fun e he => (hv e he).2)]
    rw [sum_by_source n edges (fun v => d * r v / (PG.outDeg edges v : ℚ))
      (fun e he => (hv e he).1)]
    have hterm : ∀ v, ((PG.outDeg edges v : ℚ))
          * (d * r v / (PG.outDeg edges v : ℚ))
        = d * (r v - (if PG.outDeg edges v = 0 then r v else 0)) := by
      intro v
      by_cases h : PG.outDeg edges v = 0
      · simp [h]
      · have hne : ((PG.outDeg edges v : ℚ)) ≠ 0 := Nat.cast_ne_zero.mpr h
        rw [if_neg h, sub_zero, mul_comm, div_mul_cancel₀ _ hne]
    simp only [hterm]
    rw [← Finset.mul_sum, Finset.sum_sub_distrib]
    rfl
  rw [h1, h2, h3]
  ring

theorem pagerank_mass_eq (n : Nat) (edges : List (Nat × Nat)) (d : ℚ)
    (hn : 0 < n) (hv : ∀ e ∈ edges, e.1 < n ∧ e.2 < n) :
    ∀ iters, (∑ i in Finset.range n, PG.compute_pagerank n edges d iters i) = 1 := by
  intro iters
  induction iters with
  | zero =>
    unfold PG.compute_pagerank
    have hnq : ((n : ℚ)) ≠ 0 := Nat.cast_ne_zero.mpr (Nat.pos_iff_ne_zero.mp hn)
    simp only [Function.iterate_zero, id_eq]
    rw [Finset.sum_const, Finset.card_range, nsmul_eq_mul]
    field_simp
  | succ k ih =>
    unfold PG.compute_pagerank at ih ⊢
    rw [Function.iterate_succ_apply']
    rw [pagerank_step_sum n edges d _ hn hv, ih]
    ring

/-- Claim C8: `compute_pagerank` preserves total rank mass — starting
from uniform ranks 1/N, each iteration resets to the teleport mass,
redistributes the dangling mass uniformly and distributes
d·rank/out_degree along edges, and after any number of iterations the
ranks sum to 1 within 10⁻⁶ (exactly 1 in the rational model of the f64
arithmetic), for every graph with at least one node. -/
theorem claim_C8 (n : Nat) (edges : List (Nat × Nat)) (iters : Nat)
    (hn : 0 < n) (hv : ∀ e ∈ edges, e.1 < n ∧ e.2 < n) :
    |(∑ i in Finset.range n, PG.compute_pagerank n edges (17/20) iters i) - 1|
      ≤ 1/1000000 := by
  rw [pagerank_mass_eq n edges (17/20) hn hv iters]
  norm_num

/-- Claim C8 witness: the two-node graph with a single edge, at the
damping factor and iteration count used by `RepoMapGenerator`. -/
theorem claim_C8_witness :
    (0 : Nat) < 2 ∧
    (∀ e ∈ ([((0 : Nat), (1 : Nat))] : List (Nat × Nat)), e.1 < 2 ∧ e.2 < 2) ∧
    |(∑ i in Finset.range 2, PG.compute_pagerank 2 [(0, 1)] (17/20) 20 i) - 1|
      ≤ 1/1000000 :=
  ⟨by decide, by decide, claim_C8 2 [(0, 1)] 20 (by decide) (by decide)⟩

theorem splitInclusiveNl_cons (c : Char) (s : List Char) :
    Lines.splitInclusiveNl (c :: s) = Lines.splitStep c (Lines.splitInclusiveNl s) :=
  rfl

theorem stripLast_nil (c : Char) : Lines.stripLast c [] = [] := rfl

theorem stripLast_concat (c : Char) (l : List Char) :
    Lines.stripLast c (l ++ [c]) = l := by
  unfold Lines.stripLast
  rw [List.getLast?_concat]
  simp

theorem stripLast_of_not_mem (c : Char) (l : List Char) (h : c ∉ l) :
    Lines.stripLast c l = l := by
  unfold Lines.stripLast
  cases hl : l.getLast? with
  | none => rfl
  | some c2 =>
    have hmem : c2 ∈ l := List.mem_of_getLast?_eq_some hl
    have : c2 ≠ c := fun hh => h (hh ▸ hmem)
    simp [this]

theorem stripLast_subset (c : Char) (l : List Char) :
    Lines.stripLast c l ⊆ l := by
  unfold Lines.stripLast
  cases hl : l.getLast? with
  | none => exact fun x hx => hx
  | some c2 =>
    by_cases h : c2 = c
    · simp only [h, if_pos rfl]
      exact List.dropLast_subset l
    · simp [h]

theorem chunk_ne_nil (s : List Char) :
    ∀ p ∈ Lines.splitInclusiveNl s, p ≠ [] := by
  induction s with
  | nil => intro p hp; cases hp
  | cons a s ih =>
    intro p hp
    rw [splitInclusiveNl_cons] at hp
    unfold Lines.splitStep at hp
    by_cases ha : a = '\n'
    · rw [if_pos ha] at hp
      rcases List.mem_cons.mp hp with h | h
      · subst h; simp
      · exact ih p h
    · rw [if_neg ha] at hp
      cases hsp : Lines.splitInclusiveNl s with
      | nil =>
        rw [hsp] at hp
        simp only [List.mem_singleton] at hp
        subst hp; simp
      | cons h t =>
        rw [hsp] at hp
        rcases List.mem_cons.mp hp with hh | hh
        · subst hh; simp
        · exact ih p (hsp ▸ List.mem_cons_of_mem h hh)

theorem chunk_chars (s : List Char) :
    ∀ p ∈ Lines.splitInclusiveNl s, ∀ c ∈ p, c ∈ s := by
  induction s with
  | nil => intro p hp; cases hp
  | cons a s ih =>
    intro p hp c hc
    rw [splitInclusiveNl_cons] at hp
    unfold Lines.splitStep at hp
    by_cases ha : a = '\n'
    · rw [if_pos ha] at hp
      rcases List.mem_cons.mp hp with h | h
      · subst h
        simp only [List.mem_singleton] at hc
        rw [hc]; exact List.mem_cons_self a s
      · exact List.mem_cons_of_mem a (ih p h c hc)
    · rw [if_neg ha] at hp
      cases hsp : Lines.splitInclusiveNl s with
      | nil =>
        rw [hsp] at hp
        simp only [List.mem_singleton] at hp
        subst hp
        simp only [List.mem_singleton] at hc
        rw [hc]; exact List.mem_cons_self a s
      | cons h t =>
        rw [hsp] at hp
        rcases List.mem_cons.mp hp with hh | hh
        · subst hh
          rcases List.mem_cons.mp hc with hca | hch
          · rw [hca]; exact List.mem_cons_self a s
          · exact List.mem_cons_of_mem a
              (ih h (hsp ▸ List.mem_cons_self h t) c hch)
        · exact List.mem_cons_of_mem a
            (ih p (hsp ▸ List.mem_cons_of_mem h hh) c hc)

theorem strip_nl_chunk (s : List Char) :
    ∀ p ∈ Lines.splitInclusiveNl s, '\n' ∉ Lines.stripLast '\n' p := by
  induction s with
  | nil => intro p hp; cases hp
  | cons a s ih =>
    intro p hp
    rw [splitInclusiveNl_cons] at hp
    unfold Lines.splitStep at hp
    by_cases ha : a = '\n'
    · rw [if_pos ha] at hp
      rcases List.mem_cons.mp hp with h | h
      · subst h
        subst ha
        show '\n' ∉ Lines.stripLast '\n' ([] ++ ['\n'])
        rw [stripLast_concat]
        simp
      · exact ih p h
    · rw [if_neg ha] at hp
      cases hsp : Lines.splitInclusiveNl s with
      | nil =>
        rw [hsp] at hp
        simp only [List.mem_singleton] at hp
        subst hp
        rw [stripLast_of_not_mem _ _ (by simpa using Ne.symm ha)]
        simpa using Ne.symm ha
      | cons h t =>
        rw [hsp] at hp
        rcases List.mem_cons.mp hp with hh | hh
        · subst hh
          have hhne : h ≠ [] := chunk_ne_nil s h (hsp ▸ List.mem_cons_self h t)
          have ihh : '\n' ∉ Lines.stripLast '\n' h :=
            ih h (hsp ▸ List.mem_cons_self h t)
          cases h with
          | nil => exact absurd rfl hhne
          | cons b h2 =>
            unfold Lines.stripLast
            rw [List.getLast?_cons_cons]
            cases hl : (b :: h2).getLast? with
            | none => simp at hl
            | some c2 =>
              by_cases hc2 : c2 = '\n'
              · simp only [hc2, if_pos rfl]
                intro hmem
                rw [List.dropLast_cons₂] at hmem
                rcases List.mem_cons.mp hmem with hx | hx
                · exact ha hx.symm
                · unfold Lines.stripLast at ihh
                  rw [hl, hc2] at ihh
                  simp only [if_pos rfl] at ihh
                  exact ihh hx
              · simp only [hc2, if_neg hc2]
                intro hmem
                rcases List.mem_cons.mp hmem with hx | hx
                · exact ha hx.symm
                · unfold Lines.stripLast at ihh
                  rw [hl] at ihh
                  simp only [hc2, if_neg hc2] at ihh
                  exact ihh hx
        · exact ih p (hsp ▸ List.mem_cons_of_mem h hh)

theorem split_no_nl (xs : List Char) (hx : '\n' ∉ xs) (hne : xs ≠ []) :
    Lines.splitInclusiveNl xs = [xs] := by
  induction xs with
  | nil => exact absurd rfl hne
  | cons a t ih =>
    have ha : a ≠ '\n' := fun hh => hx (hh ▸ List.mem_cons_self a t)
    have hxt : '\n' ∉ t := fun hh => hx (List.mem_cons_of_mem a hh)
    rw [splitInclusiveNl_cons]
    unfold Lines.splitStep
    rw [if_neg ha]
    cases ht : t with
    | nil => simp [Lines.splitInclusiveNl]
    | cons b t2 =>
      rw [← ht, ih hxt (ht ▸ (by simp))]

theorem split_append_nl (xs ys : List Char) (hx : '\n' ∉ xs) :
    Lines.splitInclusiveNl (xs ++ '\n' :: ys)
      = (xs ++ ['\n']) :: Lines.splitInclusiveNl ys := by
  induction xs with
  | nil =>
    simp only [List.nil_append]
    rw [splitInclusiveNl_cons]
    unfold Lines.splitStep
    rw [if_pos rfl]
  | cons a t ih =>
    have ha : a ≠ '\n' := fun hh => hx (hh ▸ List.mem_cons_self a t)
    have hxt : '\n' ∉ t := fun hh => hx (List.mem_cons_of_mem a hh)
    simp only [List.cons_append]
    rw [splitInclusiveNl_cons, ih hxt]
    unfold Lines.splitStep
    rw [if_neg ha]

theorem intercalate_nil_pieces (sep : List Char) :
    List.intercalate sep ([] : List (List Char)) = [] := by
  simp [List.intercalate]

theorem intercalate_singleton (sep : List Char) (a : List Char) :
    List.intercalate sep [a] = a := by
  simp [List.intercalate]

theorem intercalate_cons_cons (sep : List Char) (a b : List Char)
    (t : List (List Char)) :
    List.intercalate sep (a :: b :: t) = a ++ sep ++ List.intercalate sep (b :: t) := by
  simp [List.intercalate, List.intersperse]

theorem rustLines_intercalate (ps : List (List Char))
    (hnl : ∀ p ∈ ps, '\n' ∉ p) (hcr : ∀ p ∈ ps, '\r' ∉ p)
    (hne : ∀ p ∈ ps, p ≠ []) (hps : ps ≠ []) :
    Lines.rustLines (List.intercalate ['\n'] ps) = ps := by
  induction ps with
  | nil => exact absurd rfl hps
  | cons p t ih =>
    have hpnl : '\n' ∉ p := hnl p (List.mem_cons_self p t)
    have hpcr : '\r' ∉ p := hcr p (List.mem_cons_self p t)
    have hpne : p ≠ [] := hne p (List.mem_cons_self p t)
    cases t with
    | nil =>
      rw [intercalate_singleton]
      unfold Lines.rustLines
      rw [split_no_nl p hpnl hpne]
      simp only [List.map_cons, List.map_nil]
      rw [stripLast_of_not_mem _ _ hpnl, stripLast_of_not_mem _ _ hpcr]
    | cons b t2 =>
      rw [intercalate_cons_cons]
      unfold Lines.rustLines
      rw [List.append_assoc, List.singleton_append, split_append_nl _ _ hpnl]
      simp only [List.map_cons]
      rw [stripLast_concat]
      rw [stripLast_of_not_mem _ _ hpcr]
      have ihr := ih (fun q hq => hnl q (List.mem_cons_of_mem p hq))
        (fun q hq => hcr q (List.mem_cons_of_mem p hq))
        (fun q hq => hne q (List.mem_cons_of_mem p hq))
        (by simp)
      unfold Lines.rustLines at ihr
      rw [ihr]

theorem trimList_nonempty_ne_nil (p : List Char)
    (h : (!(Lines.trimList p).isEmpty) = true) : p ≠ [] := by
  intro hp
  subst hp
  simp [Lines.trimList] at h

/-- Claim C9 counterexample: `remove_empty_lines` is not idempotent — on
`"a\r\r\nb"` the first pass yields `"a\r\nb"` (one `\r` survives in the
line body), and the second pass strips the now-line-final `\r`, yielding
`"a\nb"`. -/
theorem claim_C9_cx :
    Lines.remove_empty_lines_from_content
        (Lines.remove_empty_lines_from_content (String.toList "a\r\r\nb"))
      ≠ Lines.remove_empty_lines_from_content (String.toList "a\r\r\nb") := by
  decide

/-- Claim C9 (amended): `remove_empty_lines` is idempotent on every input
that contains no carriage return.  Inputs with `\r\r\n` sequences defeat
idempotence because Rust's `lines()` strips one `\r` per pass once the
join re-creates a `\r\n` pair. -/
theorem claim_C9 (s : List Char) (hs : '\r' ∉ s) :
    Lines.remove_empty_lines_from_content (Lines.remove_empty_lines_from_content s)
      = Lines.remove_empty_lines_from_content s := by
  unfold Lines.remove_empty_lines_from_content
  set ps := (Lines.rustLines s).filter (fun p => !(Lines.trimList p).isEmpty)
    with hps
  have hmem : ∀ p ∈ ps, p ∈ Lines.rustLines s := by
    intro p hp
    rw [hps] at hp
    exact (List.mem_filter.mp hp).1
  have hpred : ∀ p ∈ ps, (!(Lines.trimList p).isEmpty) = true := by
    intro p hp
    rw [hps] at hp
    exact (List.mem_filter.mp hp).2
  have hchunk : ∀ p ∈ ps, ∃ q ∈ Lines.splitInclusiveNl s,
      p = Lines.stripLast '\r' (Lines.stripLast '\n' q) := by
    intro p hp
    rcases List.mem_map.mp (hmem p hp) with ⟨q, hq, hqe⟩
    exact ⟨q, hq, hqe.symm⟩
  have hnl : ∀ p ∈ ps, '\n' ∉ p := by
    intro p hp hin
    rcases hchunk p hp with ⟨q, hq, rfl⟩
    exact strip_nl_chunk s q hq (stripLast_subset '\r' _ hin)
  have hcr : ∀ p ∈ ps, '\r' ∉ p := by
    intro p hp hin
    rcases hchunk p hp with ⟨q, hq, rfl⟩
    exact hs (chunk_chars s q hq '\r'
      (stripLast_subset '\n' q (stripLast_subset '\r' _ hin)))
  have hne : ∀ p ∈ ps, p ≠ [] := fun p hp => trimList_nonempty_ne_nil p (hpred p hp)
  cases hpse : ps with
  | nil =>
    rw [intercalate_nil_pieces]
    show List.intercalate ['\n']
        ((Lines.rustLines []).filter fun p => !(Lines.trimList p).isEmpty) = _
    rfl
  | cons p0 t0 =>
    rw [← hpse]
    rw [rustLines_intercalate ps hnl hcr hne (by rw [hpse]; simp)]
    rw [List.filter_eq_self.mpr hpred]

/-- Claim C9 witness: a concrete carriage-return-free input. -/
theorem claim_C9_witness :
    Lines.remove_empty_lines_from_content
        (Lines.remove_empty_lines_from_content (String.toList "a\n\nb\n"))
      = Lines.remove_empty_lines_from_content (String.toList "a\n\nb\n") :=
  claim_C9 (String.toList "a\n\nb\n") (by decide)

theorem budget_core (L C B bl : Nat) (r : ℚ) (hr : 0 < r)
    (hB : 1 ≤ B) (hBC : B < C)
    (hCle : (C : ℚ) * r ≤ (L : ℚ)) (hLlt : (L : ℚ) < ((C : ℚ) + 1) * r)
    (hbl : (bl : ℚ) ≤ (L : ℚ) * ((B : ℚ) / (C : ℚ)) * (19/20)) :
    (bl : ℚ) < ((B : ℚ) + 1) * r := by
  have hBq : (1 : ℚ) ≤ (B : ℚ) := by exact_mod_cast hB
  have hCB : (B : ℚ) + 1 ≤ (C : ℚ) := by exact_mod_cast hBC
  have hC0 : (0 : ℚ) < (C : ℚ) := by linarith
  have hCne : ((C : ℚ)) ≠ 0 := ne_of_gt hC0
  have h1 : (bl : ℚ) * (20 * (C : ℚ)) ≤ (L : ℚ) * (B : ℚ) * 19 := by
    have hmul := mul_le_mul_of_nonneg_right hbl
      (le_of_lt (by positivity : (0 : ℚ) < 20 * (C : ℚ)))
    have heq : ((L : ℚ) * ((B : ℚ) / (C : ℚ)) * (19/20)) * (20 * (C : ℚ))
        = (L : ℚ) * (B : ℚ) * 19 := by
      have hstep : ((L : ℚ) * ((B : ℚ) / (C : ℚ)) * (19/20)) * (20 * (C : ℚ))
          = ((L : ℚ) * 19) * (((B : ℚ) / (C : ℚ)) * (C : ℚ)) := by ring
      rw [hstep, div_mul_cancel₀ _ hCne]
      ring
    rw [heq] at hmul
    exact hmul
  have h2 : (L : ℚ) * (B : ℚ) * 19 < (((C : ℚ) + 1) * r) * ((B : ℚ) * 19) := by
    have hpos : (0 : ℚ) < (B : ℚ) * 19 := by linarith
    calc (L : ℚ) * (B : ℚ) * 19 = (L : ℚ) * ((B : ℚ) * 19) := by ring
    _ < (((C : ℚ) + 1) * r) * ((B : ℚ) * 19) :=
        mul_lt_mul_of_pos_right hLlt hpos
  have h3 : (((C : ℚ) + 1) * r) * ((B : ℚ) * 19)
      ≤ (20 * (C : ℚ)) * (((B : ℚ) + 1) * r) := by
    nlinarith [hCB, hBq, hr.le, hC0.le]
  have h4 : (bl : ℚ) * (20 * (C : ℚ)) < (20 * (C : ℚ)) * (((B : ℚ) + 1) * r) :=
    lt_of_le_of_lt h1 (lt_of_lt_of_le h2 h3)
  nlinarith [h4, hC0]

theorem estimate_le_of_len_lt (bl B : Nat) (m : IL.TokenizerModel)
    (hr : 0 < Budget.rateOf m)
    (hlen : (bl : ℚ) < ((B : ℚ) + 1) * Budget.rateOf m) :
    (⌊(bl : ℚ) / Budget.rateOf m⌋).toNat ≤ B := by
  have hdiv : (bl : ℚ) / Budget.rateOf m < (B : ℚ) + 1 :=
    (div_lt_iff₀ hr).mpr hlen
  have hfl : ⌊(bl : ℚ) / Budget.rateOf m⌋ < (B : ℤ) + 1 := by
    rw [Int.floor_lt]
    push_cast
    exact hdiv
  omega

theorem rate_pos (m : IL.TokenizerModel) : 0 < Budget.rateOf m := by
  cases m <;> norm_num [Budget.rateOf]

theorem est_cast (text : List Nat) (m : IL.TokenizerModel)
    (hr : 0 < Budget.rateOf m) :
    ((Budget.estimate_tokens text m : ℚ))
      = ((⌊(text.length : ℚ) / Budget.rateOf m⌋ : ℤ) : ℚ) := by
  unfold Budget.estimate_tokens
  have h0 : (0 : ℚ) ≤ (text.length : ℚ) / Budget.rateOf m := by positivity
  exact_mod_cast Int.toNat_of_nonneg (Int.floor_nonneg.mpr h0)

/-- Claim C3 counterexample: with `max_tokens = 1` and a 100-byte
document, the truncated output plus the appended truncation notice
estimates to 12 Claude tokens, violating the budget post-condition. -/
theorem claim_C3_cx :
    ¬ (Budget.estimate_tokens
        (Budget.enforce (List.replicate 100 97) 1 IL.TokenizerModel.Claude)
        IL.TokenizerModel.Claude ≤ 1) := by
  decide

/-- Claim C3 (amended): whenever `max_tokens > 0`, the truncated document
*before* the appended single-line truncation notice satisfies
`estimated_tokens ≤ max_tokens`; the final output with the notice can
exceed the budget (by up to the notice's own estimate), so the claim
fails as stated for small budgets. -/
theorem claim_C3 (text : List Nat) (max_tokens : Nat) (m : IL.TokenizerModel)
    (h : 0 < max_tokens) :
    Budget.estimate_tokens (Budget.preNotice text max_tokens m) m ≤ max_tokens := by
  have hr : (0 : ℚ) < Budget.rateOf m := rate_pos m
  by_cases hle : Budget.estimate_tokens text m ≤ max_tokens
  · unfold Budget.preNotice
    simp only [if_pos hle]
    exact hle
  · have hBC : max_tokens < Budget.estimate_tokens text m := not_le.mp hle
    have hCcast : ((Budget.estimate_tokens text m : ℚ))
        = ((⌊(text.length : ℚ) / Budget.rateOf m⌋ : ℤ) : ℚ) := est_cast text m hr
    have hCle : ((Budget.estimate_tokens text m : ℚ)) * Budget.rateOf m
        ≤ (text.length : ℚ) := by
      have hfle : ((Budget.estimate_tokens text m : ℚ))
          ≤ (text.length : ℚ) / Budget.rateOf m := by
        rw [hCcast]
        exact Int.floor_le ((text.length : ℚ) / Budget.rateOf m)
      exact (le_div_iff₀ hr).mp hfle
    have hLlt : (text.length : ℚ)
        < ((Budget.estimate_tokens text m : ℚ) + 1) * Budget.rateOf m := by
      have hflt : (text.length : ℚ) / Budget.rateOf m
          < (Budget.estimate_tokens text m : ℚ) + 1 := by
        rw [hCcast]
        exact_mod_cast Int.lt_floor_add_one ((text.length : ℚ) / Budget.rateOf m)
      exact (div_lt_iff₀ hr).mp hflt
    have harg0 : (0 : ℚ) ≤ (text.length : ℚ)
        * ((max_tokens : ℚ) / (Budget.estimate_tokens text m : ℚ)) * (19/20) := by
      positivity
    have htg : (((⌊(text.length : ℚ)
          * ((max_tokens : ℚ) / (Budget.estimate_tokens text m : ℚ))
          * (19/20)⌋).toNat : ℚ))
        ≤ (text.length : ℚ)
          * ((max_tokens : ℚ) / (Budget.estimate_tokens text m : ℚ)) * (19/20) := by
      have hc : (((⌊(text.length : ℚ)
            * ((max_tokens : ℚ) / (Budget.estimate_tokens text m : ℚ))
            * (19/20)⌋).toNat : ℚ))
          = ((⌊(text.length : ℚ)
            * ((max_tokens : ℚ) / (Budget.estimate_tokens text m : ℚ))
            * (19/20)⌋ : ℤ) : ℚ) := by
        exact_mod_cast Int.toNat_of_nonneg (Int.floor_nonneg.mpr harg0)
      rw [hc]
      exact Int.floor_le _
    have hblen : (Budget.preNotice text max_tokens m).length
        ≤ (⌊(text.length : ℚ)
          * ((max_tokens : ℚ) / (Budget.estimate_tokens text m : ℚ))
          * (19/20)⌋).toNat := by
      unfold Budget.preNotice
      rw [if_neg hle]
      simp only [List.length_take]
      omega
    have hblq : ((Budget.preNotice text max_tokens m).length : ℚ)
        ≤ (text.length : ℚ)
          * ((max_tokens : ℚ) / (Budget.estimate_tokens text m : ℚ)) * (19/20) := by
      calc ((Budget.preNotice text max_tokens m).length : ℚ)
          ≤ (((⌊(text.length : ℚ)
            * ((max_tokens : ℚ) / (Budget.estimate_tokens text m : ℚ))
            * (19/20)⌋).toNat : ℚ)) := by exact_mod_cast hblen
      _ ≤ _ := htg
    have hcore := budget_core text.length (Budget.estimate_tokens text m)
      max_tokens (Budget.preNotice text max_tokens m).length
      (Budget.rateOf m) hr h hBC hCle hLlt hblq
    unfold Budget.estimate_tokens
    exact estimate_le_of_len_lt _ _ m hr hcore

/-- Claim C3 witness: a 100-byte document against a budget of 5. -/
theorem claim_C3_witness :
    Budget.estimate_tokens
        (Budget.preNotice (List.replicate 100 97) 5 IL.TokenizerModel.Claude)
        IL.TokenizerModel.Claude ≤ 5 :=
  claim_C3 (List.replicate 100 97) 5 IL.TokenizerModel.Claude (by decide)

theorem rank_files_importance (fs : List IL.RepoFile) :
    (FullRank.rank_files fs).map (fun f => f.importance)
      = fs.map (fun f => FullRank.fileImp f.path f.relative_path f.symbols.length) := by
  unfold FullRank.rank_files
  rw [List.map_map]
  rfl

/-- Claim C2 counterexample: two repositories whose files agree on paths
and symbol counts but whose symbol graphs differ (`repoR1` gains an
Imports edge into util.py, `repoR2` a self-loop) receive identical
full-mode file importances and order, while the repo-map key symbols
differ — so converged PageRank ranks are not used to order files, and
full-mode file importance does not depend on the symbol graph. -/
theorem claim_C2_cx :
    (FullRank.fullMode CX.repoR1).map (fun f => (f.relative_path, f.importance))
      = (FullRank.fullMode CX.repoR2).map (fun f => (f.relative_path, f.importance)) ∧
    (RMap.generate CX.repoR1).edges ≠ (RMap.generate CX.repoR2).edges := by
  constructor
  · decide
  · decide

/-- Claim C2 (amended): the full-mode branch ranks files with
`rank_files`, a path-pattern heuristic plus a per-file symbol-count
boost, then sorts by importance; PageRank is computed only inside the
RepoMap generator for symbol ranking.  Hence full-mode file importance is
a function of each file's path, relative path and symbol count alone:
repositories agreeing on those produce identical importances regardless
of their symbol graphs. -/
theorem claim_C2 (fs1 fs2 : List IL.RepoFile)
    (h : fs1.map (fun f => (f.path, f.relative_path, f.symbols.length))
       = fs2.map (fun f => (f.path, f.relative_path, f.symbols.length))) :
    (FullRank.rank_files fs1).map (fun f => f.importance)
      = (FullRank.rank_files fs2).map (fun f => f.importance) := by
  rw [rank_files_importance, rank_files_importance]
  have hfac : ∀ fs : List IL.RepoFile,
      fs.map (fun f => FullRank.fileImp f.path f.relative_path f.symbols.length)
        = (fs.map (fun f => (f.path, f.relative_path, f.symbols.length))).map
            (fun p => FullRank.fileImp p.1 p.2.1 p.2.2) := by
    intro fs
    rw [List.map_map]
    rfl
  rw [hfac, hfac, h]

/-- Claim C2 witness: the two concrete repositories from the
counterexample satisfy the agreement hypothesis. -/
theorem claim_C2_witness :
    (FullRank.rank_files CX.repoR1).map (fun f => f.importance)
      = (FullRank.rank_files CX.repoR2).map (fun f => f.importance) :=
  claim_C2 CX.repoR1 CX.repoR2 (by decide)

/-- Claim C1 counterexample: on the spec's two-file scenario the first
ranked key symbol carries the raw import text as its name, not `util`:
the import symbol is itself indexed by name, resolution finds it, and
the resulting self-loop feeds its own rank, putting the mod.py
node above the util.py function node. -/
theorem claim_C1_cx :
    ((RMap.generate CX.scenarioFiles).key_symbols.head?).map (fun r => r.name)
      = some "import util" ∧
    ("import util" : String) ≠ "util" ∧
    (RMap.generate CX.scenarioFiles).edges.length = 1 := by
  refine ⟨?_, by decide, ?_⟩
  · decide
  · decide

/-- Claim C1 (amended): on the scenario repository (mod.py importing
util, util.py defining it), `generate` resolves the import symbol's name
against the in-repo index and adds exactly one Imports edge — a
self-loop on mod.py's import node, because the symbol is named by its
raw statement text and that name is itself in the index; PageRank then
ranks the self-looped node first, so the head of `key_symbols` is the
raw import text rather than `util`. -/
theorem claim_C1 :
    (RMap.generate CX.scenarioFiles).edges = [(0, 0)] ∧
    (RMap.generate CX.scenarioFiles).key_symbols.map (fun r => r.name)
      = ["import util", "util"] := by
  constructor
  · decide
  · decide
